import Mathlib

/-!
Verification of the brainvest-backend aggregation and similarity-scoring core.

Python dictionaries (`Dict[str, float]`) are modelled as association lists
`List (κ × ℚ)`: entries in insertion order, lookup returns the value of the
first entry with the given key and `0.0` (the `dict.get(k, 0.0)` default)
when the key is absent.  Python floats are modelled as exact rationals `ℚ`;
real-valued computations (`math.sqrt`) are modelled over `ℝ`.
Python strings manipulated character by character (`size.py`) are modelled
as `List Char`.  A JSON object field that may be absent is modelled as an
`Option`; a field whose value may itself be JSON `null` is modelled with a
nested `Option`.
-/

namespace Brainvest

/-- `d.get(k, 0.0)` on a dict modelled as an association list: value of the
first entry whose key is `k`, `0` when no entry has key `k`. -/
def lookupD [DecidableEq κ] (m : List (κ × ℚ)) (k : κ) : ℚ :=
  (((m.find? fun p => p.1 == k).map fun p => p.2).getD 0)

/-- Keys of a dict in insertion order. -/
def keysOf (m : List (κ × ℚ)) : List κ :=
  m.map fun p => p.1

/-- `sum(d.values())`. -/
def sumValues (m : List (κ × ℚ)) : ℚ :=
  (m.map fun p => p.2).sum

/-- `d[k] += v` creating the entry at `0` if absent: adds `v` to the first
entry with key `k`, appends `(k, v)` when no entry has key `k` (Python dicts
keep insertion order). -/
def bump [DecidableEq κ] : List (κ × ℚ) → κ → ℚ → List (κ × ℚ)
  | [], k, v => [(k, v)]
  | (k', v') :: rest, k, v =>
      if k' = k then (k', v' + v) :: rest else (k', v') :: bump rest k v

/-- One holding as consumed by the per-dimension analysis lambdas.
Every field is modelled as optional (`none` = key absent from the JSON
object, or for the momentum/volatility numeric fields also JSON `null`,
both cases the code maps to the same default).  The `sector` field keeps
the absent / present-but-`null` distinction because
`holding.get('sector', 'Unknown')` treats them differently. -/
structure Holding where
  symbol : Option String := none
  portfolio_percentage : Option ℚ := none
  beta : Option ℚ := none
  sharpe : Option ℚ := none
  trailing_return_1m : Option ℚ := none
  sector : Option (Option String) := none
  country : Option String := none
  city : Option String := none
  state : Option String := none

namespace Sector

/-- `sector.py` `normalize_sector_allocations`: if the values sum to `0`
return the dict unchanged, otherwise rescale every value by
`value / total * 100`. -/
def normalize_sector_allocations (sectors : List (κ × ℚ)) : List (κ × ℚ) :=
  if sumValues sectors = 0 then sectors
  else sectors.map fun p => (p.1, p.2 / sumValues sectors * 100)

/-- `set(sp.keys()) | set(user.keys())` as a deduplicated list (set
iteration order does not matter: every use below is an order-independent
sum). -/
def allKeys [DecidableEq κ] (a b : List (κ × ℚ)) : List κ :=
  (keysOf a ++ keysOf b).dedup

/-- The union keys of the two normalized dicts inside
`calculate_similarity`. -/
def normKeys [DecidableEq κ] (sp user : List (κ × ℚ)) : List κ :=
  allKeys (normalize_sector_allocations sp) (normalize_sector_allocations user)

/-- `[sp500_normalized.get(sector, 0.0) for sector in all_sectors]`. -/
def spVec [DecidableEq κ] (sp user : List (κ × ℚ)) : List ℚ :=
  (normKeys sp user).map (lookupD (normalize_sector_allocations sp))

/-- `[user_normalized.get(sector, 0.0) for sector in all_sectors]`. -/
def userVec [DecidableEq κ] (sp user : List (κ × ℚ)) : List ℚ :=
  (normKeys sp user).map (lookupD (normalize_sector_allocations user))

/-- `sum(a * b for a, b in zip(u, v))`. -/
def dotL (a b : List ℚ) : ℚ := (List.zipWith (· * ·) a b).sum

/-- `sum(x * x for x in v)` — the squared magnitude fed to `math.sqrt`. -/
def sumSq (v : List ℚ) : ℚ := (v.map fun x => x * x).sum

open Classical in
/-- Python `round` to an integer on exact reals: round half to even. -/
noncomputable def roundHalfEven (x : ℝ) : ℤ :=
  if Int.fract x < 1 / 2 then ⌊x⌋
  else if 1 / 2 < Int.fract x then ⌊x⌋ + 1
  else if Even ⌊x⌋ then ⌊x⌋ else ⌊x⌋ + 1

/-- Python `round(x, 2)`. -/
noncomputable def pyRound2 (x : ℝ) : ℝ := (roundHalfEven (x * 100) : ℝ) / 100

open Classical in
/-- `sector.py` `calculate_similarity`: normalize both dicts, build the
two vectors over the union of keys, and return
`round(dot / (|sp| * |user|) * 100, 2)` — or `0.0` when either magnitude
is zero.  `math.sqrt` forces the result into `ℝ`, hence the
noncomputable exact-real model. -/
noncomputable def calculate_similarity [DecidableEq κ]
    (sp user : List (κ × ℚ)) : ℝ :=
  let dot := dotL (spVec sp user) (userVec sp user)
  let magSp := Real.sqrt ((sumSq (spVec sp user) : ℚ) : ℝ)
  let magUser := Real.sqrt ((sumSq (userVec sp user) : ℚ) : ℝ)
  if magSp = 0 ∨ magUser = 0 then 0
  else pyRound2 ((dot : ℝ) / (magSp * magUser) * 100)

end Sector

namespace Momentum

/-- `momentum.py` benchmark constant `sp500_momentum = 3.5`. -/
def sp500_momentum : ℚ := 7 / 2

/-- `momentum.py` accumulation loop: for each holding,
`contribution = (trailing_return_1m or 0) * ((portfolio_percentage or 0) / 100)`,
summed into `weighted_trailing_return` starting from `0`. -/
def weighted_trailing_return (holdings : List Holding) : ℚ :=
  holdings.foldl
    (fun acc h =>
      acc + h.trailing_return_1m.getD 0 * (h.portfolio_percentage.getD 0 / 100))
    0

/-- `momentum.py`: `((weighted - sp500) / sp500) * 100` when the weighted
trailing return is nonzero, `None` when it is exactly zero. -/
def momentum_comparison (holdings : List Holding) : Option ℚ :=
  if weighted_trailing_return holdings ≠ 0 then
    some ((weighted_trailing_return holdings - sp500_momentum) / sp500_momentum * 100)
  else none

end Momentum

namespace Volatility

/-- `volatility.py` accumulation loop:
`weight = portfolio_pct / 100.0; weighted_beta += weight * (beta or 0)`
with `portfolio_pct = holding.get('portfolio_percentage', 0)`. -/
def weighted_beta (holdings : List Holding) : ℚ :=
  holdings.foldl
    (fun acc h => acc + h.portfolio_percentage.getD 0 / 100 * h.beta.getD 0)
    0

/-- `volatility.py` accumulation loop for `weighted_sharpe`. -/
def weighted_sharpe (holdings : List Holding) : ℚ :=
  holdings.foldl
    (fun acc h => acc + h.portfolio_percentage.getD 0 / 100 * h.sharpe.getD 0)
    0

end Volatility

namespace Sector

/-- `holding.get('sector', 'Unknown')` in `process_holdings_to_sectors`:
an absent `sector` key falls back to the string `"Unknown"`, a present key
keeps its value — including Python `None` (modelled as the dict key
`none : Option String`). -/
def sectorKey (h : Holding) : Option String :=
  match h.sector with
  | none => some "Unknown"
  | some v => v

/-- `sector.py` `process_holdings_to_sectors`: accumulate each holding's
`portfolio_percentage` (default `0.0`) under its sector key; no holding is
skipped. -/
def process_holdings_to_sectors (holdings : List Holding) :
    List (Option String × ℚ) :=
  holdings.foldl
    (fun acc h => bump acc (sectorKey h) (h.portfolio_percentage.getD 0)) []

end Sector

namespace Location

/-- `holding.get(f, '').strip() if holding.get(f) else ''`: a missing,
`null`, empty or falsy field becomes `''`, otherwise the value is
whitespace-stripped. -/
def effField (v : Option String) : String := (v.getD "").trim

/-- The loop state of `process_holdings_to_locations`: the accumulated
`location_allocations` dict and `total_percentage`. -/
structure LocState where
  alloc : List (String × ℚ)
  total : ℚ

/-- One iteration of the `process_holdings_to_locations` loop
(`location.py` lines 12–47): skip the holding when its percentage is
non-positive or when it has no location data at all; otherwise build the
composite location key (`"state, country"`, else `"city, country"`, else
`country`, with missing country defaulting to `"Unknown"`) and accumulate. -/
def locStep (st : LocState) (h : Holding) : LocState :=
  let country := effField h.country
  let city := effField h.city
  let state := effField h.state
  let percentage := h.portfolio_percentage.getD 0
  if percentage ≤ 0 then st
  else if country = "" ∧ city = "" ∧ state = "" then st
  else
    let country := if country = "" then "Unknown" else country
    let location :=
      if state ≠ "" then state ++ ", " ++ country
      else if city ≠ "" then city ++ ", " ++ country
      else country
    { alloc := bump st.alloc location percentage, total := st.total + percentage }

/-- `location.py` `process_holdings_to_locations`: fold the loop over the
holdings, then normalize the allocations by `total_percentage` when that
total is positive. -/
def process_holdings_to_locations (holdings : List Holding) :
    List (String × ℚ) :=
  let st := holdings.foldl locStep ⟨[], 0⟩
  if 0 < st.total then st.alloc.map fun p => (p.1, p.2 / st.total * 100)
  else st.alloc

end Location

namespace Size

/-- Characters Python `str.strip()` and `float()` treat as whitespace
(the ASCII ones relevant here). -/
def isWS (c : Char) : Bool := c = ' ' ∨ c = '\t' ∨ c = '\n' ∨ c = '\r'

/-- Python `str.strip()`: drop whitespace from both ends. -/
def trimWS (cs : List Char) : List Char :=
  ((cs.dropWhile isWS).reverse.dropWhile isWS).reverse

/-- ASCII decimal digit test. -/
def isDigit (c : Char) : Bool := '0' ≤ c ∧ c ≤ '9'

/-- Numeric value of a digit character. -/
def digitVal (c : Char) : ℕ := c.toNat - '0'.toNat

/-- Value of a digit string read in base 10. -/
def digitsToNat (ds : List Char) : ℕ :=
  ds.foldl (fun a c => 10 * a + digitVal c) 0

/-- The lowercase → uppercase table of the ASCII letters. -/
def lowerUpper : List (Char × Char) :=
  [('a', 'A'), ('b', 'B'), ('c', 'C'), ('d', 'D'), ('e', 'E'), ('f', 'F'),
   ('g', 'G'), ('h', 'H'), ('i', 'I'), ('j', 'J'), ('k', 'K'), ('l', 'L'),
   ('m', 'M'), ('n', 'N'), ('o', 'O'), ('p', 'P'), ('q', 'Q'), ('r', 'R'),
   ('s', 'S'), ('t', 'T'), ('u', 'U'), ('v', 'V'), ('w', 'W'), ('x', 'X'),
   ('y', 'Y'), ('z', 'Z')]

/-- Model of Python `str.upper()` on the ASCII letters (non-letters are
unchanged). -/
def upperChar (c : Char) : Char :=
  ((lowerUpper.find? fun p => p.1 == c).map fun p => p.2).getD c

/-- `str.upper()` over a whole string. -/
def upperStr (cs : List Char) : List Char := cs.map upperChar

/-- An optional leading sign: returns (is-negative, remainder). -/
def splitSign (cs : List Char) : Bool × List Char :=
  match cs with
  | [] => (false, [])
  | c :: r =>
      if c = '-' then (true, r)
      else if c = '+' then (false, r)
      else (false, c :: r)

/-- The fractional digits after an optional decimal point: returns
(fraction digits, remainder). -/
def splitFrac (cs : List Char) : List Char × List Char :=
  match cs with
  | [] => ([], [])
  | c :: r =>
      if c = '.' then (r.takeWhile isDigit, r.dropWhile isDigit)
      else ([], c :: r)

/-- An optional exponent part `e<sign><digits>` ending the literal: the
multiplier it denotes, or `none` when the trailing characters are not a
valid exponent. -/
def expMult (cs : List Char) : Option ℚ :=
  match cs with
  | [] => some 1
  | c :: r =>
      if c = 'e' ∨ c = 'E' then
        let s := splitSign r
        let ed := s.2.takeWhile isDigit
        if ed = [] ∨ s.2.dropWhile isDigit ≠ [] then none
        else some (if s.1 then ((1 : ℚ) / 10) ^ digitsToNat ed
          else (10 : ℚ) ^ digitsToNat ed)
      else none

/-- `-q` when the sign was negative. -/
def applySign (neg : Bool) (q : ℚ) : ℚ := if neg then -q else q

/-- Model of Python `float(s)` on finite decimal literals
(`[+-]?digits[.digits][eE[+-]digits]`, whitespace-stripped), as an exact
rational; `none` models `float` raising `ValueError`.  The special forms
`inf`/`nan` and digit-group underscores are treated as unparseable — they
cannot arise from sensible market-cap strings. -/
def pyFloat (cs : List Char) : Option ℚ :=
  let t := trimWS cs
  let s := splitSign t
  let ip := s.2.takeWhile isDigit
  let rest := s.2.dropWhile isDigit
  let fr := splitFrac rest
  if ip = [] ∧ fr.1 = [] then none
  else
    match expMult fr.2 with
    | none => none
    | some mult =>
        some (applySign s.1
          (((digitsToNat ip : ℚ) + (digitsToNat fr.1 : ℚ) / 10 ^ fr.1.length) * mult))

/-- `size.py` `parse_market_cap`: falsy input gives `0`; otherwise
uppercase, drop commas, strip whitespace, detect a trailing `T`/`B`/`M`
multiplier, and parse the remainder as a float — any parse failure gives
`0` (the bare `except`). -/
def parse_market_cap (cs : List Char) : ℚ :=
  if cs = [] then 0
  else
    let t := trimWS ((upperStr cs).filter fun c => c ≠ ',')
    if t.getLast? = some 'T' then
      match pyFloat t.dropLast with
      | some q => q * 1000000000000
      | none => 0
    else if t.getLast? = some 'B' then
      match pyFloat t.dropLast with
      | some q => q * 1000000000
      | none => 0
    else if t.getLast? = some 'M' then
      match pyFloat t.dropLast with
      | some q => q * 1000000
      | none => 0
    else
      match pyFloat t with
      | some q => q
      | none => 0

/-- The numeric part of a market-cap string as the spec words it:
unparseable or empty yields `0`. -/
def numericPart (u : List Char) : ℚ := (pyFloat u).getD 0

/-- The Market-Cap Classifier parsing contract as the spec words it
(§4.4): commas stripped, a case-insensitive suffix `T`/`B`/`M`
multiplying the numeric part by `1e12`/`1e9`/`1e6`, no suffix meaning
`1`, and empty or unparseable input yielding magnitude `0`. -/
def specMarketCapMagnitude (cs : List Char) : ℚ :=
  let t := trimWS (cs.filter fun c => c ≠ ',')
  if t.getLast? = some 'T' ∨ t.getLast? = some 't' then
    numericPart t.dropLast * 1000000000000
  else if t.getLast? = some 'B' ∨ t.getLast? = some 'b' then
    numericPart t.dropLast * 1000000000
  else if t.getLast? = some 'M' ∨ t.getLast? = some 'm' then
    numericPart t.dropLast * 1000000
  else numericPart t

/-- The bucketing chain of `size.py` `lambda_handler` (lines 64–75),
refactored as the tier assigned to a single holding's parsed magnitude. -/
def classify_market_cap (m : ℚ) : String :=
  if m > 200000000000 then "Mega-cap"
  else if 10000000000 ≤ m ∧ m ≤ 200000000000 then "Large-cap"
  else if 2000000000 ≤ m ∧ m < 10000000000 then "Mid-cap"
  else if 300000000 ≤ m ∧ m < 2000000000 then "Small-cap"
  else if 50000000 ≤ m ∧ m < 300000000 then "Micro-cap"
  else "Nano-cap"

end Size

namespace BiasRouter

/-- One raw holding of the enriched portfolio document consumed by
`bias-router.py`: the `analysis` sub-object's fields are flattened;
`none` models an absent key or a `null` value (both give `None` under
`analysis.get(...)`). -/
structure RawHolding where
  symbol : Option String := none
  portfolio_percentage : Option ℚ := none
  analysis_asset_type : Option String := none
  analysis_sector : Option String := none

/-- `bias-router.py` `prepare_sector_data`: drop ETF holdings, keep
`symbol`, default the percentage with `holding.get('portfolio_percentage', 0)`,
and set `'sector': analysis.get('sector')` — the `sector` key is always
present in the prepared holding, possibly with value `None`. -/
def prepare_sector_data (holdings : List RawHolding) : List Holding :=
  (holdings.filter fun h => h.analysis_asset_type != some "ETF").map fun h =>
    { symbol := h.symbol
      portfolio_percentage := some (h.portfolio_percentage.getD 0)
      sector := some h.analysis_sector }

end BiasRouter

namespace ResultCompiler

/-- The five required per-dimension result filenames
(`result-compiler.py` lines 15–21). -/
def required_files : List String :=
  ["location_results.json", "momentum_results.json", "sector_results.json",
   "size_results.json", "volatility_results.json"]

/-- The listing namespace `f"results/{uniqueIdentifier}/"`. -/
def resPfx (uid : String) : String := "results/" ++ uid ++ "/"

/-- The observable outcome of one combiner invocation: the raised
exception, or the single write of the combined document.  Error outcomes
carry no combined document — nothing is written on them. -/
inductive Outcome (α : Type) where
  | noFilesErr (pfx : String)
  | missingErr (missing : List String)
  | readErr (key : String)
  | okWrite (key : String) (combined : List (String × α))
deriving DecidableEq

/-- The filenames listed under the identifier's namespace:
`list_objects_v2(Prefix=prefix)` followed by `Key.replace(prefix, "")`.
The store is modelled as `(identifier, filename, document)` triples, the
flat S3 key `results/{uid}/{filename}` being the pair `(uid, filename)`. -/
def foundOf (uid : String) (store : List (String × String × α)) :
    List String :=
  (store.filter fun e => e.1 == uid).map fun e => e.2.1

/-- `[f for f in required_files if f not in found_files]`. -/
def missingOf (uid : String) (store : List (String × String × α)) :
    List String :=
  required_files.filter fun f => f ∉ foundOf uid store

/-- `get_object` on the modelled store: the first document stored at
`(uid, filename)`. -/
def objLookup (uid : String) (store : List (String × String × α))
    (f : String) : Option α :=
  (store.find? fun e => e.1 == uid && e.2.1 == f).map fun e => e.2.2

/-- Reading the required files in order into
`combined_data[filename.replace(".json", "")]`, stopping at the first
failing read (the `except ClientError: raise` path). -/
def readAll (uid : String) (store : List (String × String × α)) :
    List String → Except String (List (String × α))
  | [] => .ok []
  | f :: rest =>
      match objLookup uid store f with
      | none => .error (resPfx uid ++ f)
      | some d =>
          (readAll uid store rest).map fun l => (f.replace ".json" "", d) :: l

/-- `result-compiler.py` `lambda_handler` as a pure function of the store:
raise "No files found" when nothing is listed under the namespace; raise
naming the missing required files when some are absent; otherwise read
all five, merge them keyed by filename with `.json` stripped, and write
once to `{uid}_combined_results.json`. -/
def lambda_handler (uid : String) (store : List (String × String × α)) :
    Outcome α :=
  if foundOf uid store = [] then .noFilesErr (resPfx uid)
  else if missingOf uid store ≠ [] then .missingErr (missingOf uid store)
  else
    match readAll uid store required_files with
    | .error k => .readErr k
    | .ok combined => .okWrite (uid ++ "_combined_results.json") combined

end ResultCompiler

/-- Sample store holding all five dimension results for portfolio `"p"`. -/
def sampleStore5 : List (String × String × String) :=
  [("p", "location_results.json", "L"), ("p", "momentum_results.json", "M"),
   ("p", "sector_results.json", "Se"), ("p", "size_results.json", "Si"),
   ("p", "volatility_results.json", "V")]

/-- Sample store holding only four of the five dimension results. -/
def sampleStore4 : List (String × String × String) :=
  [("p", "location_results.json", "L"), ("p", "momentum_results.json", "M"),
   ("p", "size_results.json", "Si"), ("p", "volatility_results.json", "V")]

/-- Sample holding: zero percentage, with location data. -/
def hZeroPct : Holding := { portfolio_percentage := some 0, country := some "US" }

/-- Sample holding: positive percentage, with location data. -/
def hFrance : Holding := { portfolio_percentage := some 10, country := some "France" }

/-- Sample holding: a plain sector holding. -/
def hTech : Holding := { sector := some (some "Tech"), portfolio_percentage := some 4 }

/-- Sample holding whose `sector` key is present with value `null`. -/
def hNullSector : Holding := { sector := some none, portfolio_percentage := some 7 }

/-- Sample holding with no `sector` key at all. -/
def hNoSector : Holding := { portfolio_percentage := some 3 }

/-- Sample raw holding with no enrichment data. -/
def rawPlain : BiasRouter.RawHolding := {}

/-- The prepared holding `prepare_sector_data` derives from `rawPlain`. -/
def preparedPlain : Holding :=
  { symbol := none, portfolio_percentage := some 0, sector := some none }

/-! ## Generic lemmas about the dict model -/

theorem lookupD_nil [DecidableEq κ] (k : κ) :
    lookupD ([] : List (κ × ℚ)) k = 0 := rfl

theorem lookupD_cons [DecidableEq κ] (p : κ × ℚ) (m : List (κ × ℚ)) (k : κ) :
    lookupD (p :: m) k = if p.1 = k then p.2 else lookupD m k := by
  by_cases h : p.1 = k <;> simp [lookupD, List.find?_cons, h]

theorem lookupD_eq_zero_of_not_mem [DecidableEq κ] {m : List (κ × ℚ)} {k : κ}
    (h : k ∉ keysOf m) : lookupD m k = 0 := by
  induction m with
  | nil => rfl
  | cons p rest ih =>
      rw [lookupD_cons]
      rw [keysOf, List.map_cons, List.mem_cons, not_or] at h
      rw [if_neg (fun hp => h.1 hp.symm)]
      exact ih h.2

theorem mem_keysOf_of_lookupD_ne_zero [DecidableEq κ] {m : List (κ × ℚ)}
    {k : κ} (h : lookupD m k ≠ 0) : k ∈ keysOf m := by
  by_contra hk
  exact h (lookupD_eq_zero_of_not_mem hk)

/-- Looking up in a value-mapped dict maps the looked-up value. -/
theorem lookupD_map_value [DecidableEq κ] (m : List (κ × ℚ)) (f : ℚ → ℚ)
    (hf : f 0 = 0) (k : κ) :
    lookupD (m.map fun p => (p.1, f p.2)) k = f (lookupD m k) := by
  induction m with
  | nil => simpa [lookupD_nil] using hf.symm
  | cons p rest ih =>
      rw [List.map_cons, lookupD_cons, lookupD_cons]
      by_cases h : p.1 = k
      · simp [h]
      · simp [h, ih]

theorem keysOf_map_value (m : List (κ × ℚ)) (f : κ × ℚ → ℚ) :
    keysOf (m.map fun p => (p.1, f p)) = keysOf m := by
  induction m with
  | nil => rfl
  | cons p rest ih => simp [keysOf]

/-- Folding `acc + f x` over a list sums `f` over the list. -/
theorem foldl_add_eq_sum (f : α → ℚ) (l : List α) (a : ℚ) :
    l.foldl (fun acc x => acc + f x) a = a + (l.map f).sum := by
  induction l generalizing a with
  | nil => simp
  | cons x rest ih => simp [ih, add_assoc]

/-- Looking up after `bump acc k v`: the value at `k` grows by `v`, every
other key is unchanged. -/
theorem lookupD_bump [DecidableEq κ] (acc : List (κ × ℚ)) (k q : κ) (v : ℚ) :
    lookupD (bump acc k v) q = lookupD acc q + if k = q then v else 0 := by
  induction acc with
  | nil =>
      simp only [bump, lookupD_cons, lookupD_nil]
      by_cases h : k = q <;> simp [h]
  | cons p rest ih =>
      simp only [bump]
      by_cases hk : p.1 = k
      · rw [if_pos hk, lookupD_cons, lookupD_cons]
        by_cases hq : p.1 = q
        · have hkq : k = q := by rw [← hk]; exact hq
          rw [if_pos hq, if_pos hq, if_pos hkq]
        · have hkq : k ≠ q := fun he => hq (hk.trans he)
          rw [if_neg hq, if_neg hq, if_neg hkq, add_zero]
      · rw [if_neg hk, lookupD_cons, lookupD_cons]
        by_cases hq : p.1 = q
        · have hkq : k ≠ q := fun he => hk (hq.trans he.symm)
          rw [if_pos hq, if_pos hq, if_neg hkq, add_zero]
        · rw [if_neg hq, if_neg hq, ih]

/-- Characterization of a `bump`-accumulating fold: the resulting value at
`q` is the starting value plus the sum of weights of all items keyed `q`. -/
theorem lookupD_foldl_bump [DecidableEq κ] (key : α → κ) (w : α → ℚ)
    (hs : List α) (acc : List (κ × ℚ)) (q : κ) :
    lookupD (hs.foldl (fun a h => bump a (key h) (w h)) acc) q =
      lookupD acc q + ((hs.filter fun h => key h = q).map w).sum := by
  induction hs generalizing acc with
  | nil => simp
  | cons h rest ih =>
      rw [List.foldl_cons, ih, lookupD_bump]
      by_cases hk : key h = q
      · simp [List.filter_cons, hk, add_assoc]
      · simp [List.filter_cons, hk]

/-- A holding with non-positive (or missing) percentage leaves the location
loop state unchanged. -/
theorem locStep_of_nonpos (st : Location.LocState) (h : Holding)
    (hp : h.portfolio_percentage.getD 0 ≤ 0) : Location.locStep st h = st := by
  simp only [Location.locStep]
  rw [if_pos hp]

/-! ## Lemmas about the market-cap parser -/

namespace Size

/-- Either `c` is not a lowercase letter and is fixed by `upperChar`, or it
is a table row's key and maps to that row's value. -/
theorem upperChar_cases (c : Char) :
    (upperChar c = c ∧ ∀ p ∈ lowerUpper, p.1 ≠ c) ∨
      ∃ p ∈ lowerUpper, p.1 = c ∧ upperChar c = p.2 := by
  unfold upperChar
  cases hfind : lowerUpper.find? fun p => p.1 == c with
  | none =>
      left
      refine ⟨rfl, fun p hp => ?_⟩
      have := List.find?_eq_none.mp hfind p hp
      simpa using this
  | some p =>
      right
      refine ⟨p, List.mem_of_find?_eq_some hfind, ?_, rfl⟩
      have := List.find?_some hfind
      simpa using this

theorem upperChar_of_digit {c : Char} (hd : isDigit c = true) :
    upperChar c = c := by
  rcases upperChar_cases c with ⟨heq, _⟩ | ⟨p, hp, hpc, hval⟩
  · exact heq
  · exfalso
    have hnd := (by decide : ∀ q ∈ lowerUpper, isDigit q.1 = false) p hp
    rw [hpc, hd] at hnd
    exact Bool.true_eq_false.mp hnd

theorem isDigit_upperChar (c : Char) : isDigit (upperChar c) = isDigit c := by
  rcases upperChar_cases c with ⟨heq, _⟩ | ⟨p, hp, hpc, hval⟩
  · rw [heq]
  · rw [hval, ← hpc]
    exact (by decide : ∀ q ∈ lowerUpper, isDigit q.2 = isDigit q.1) p hp

theorem isWS_upperChar (c : Char) : isWS (upperChar c) = isWS c := by
  rcases upperChar_cases c with ⟨heq, _⟩ | ⟨p, hp, hpc, hval⟩
  · rw [heq]
  · rw [hval, ← hpc]
    exact (by decide : ∀ q ∈ lowerUpper, isWS q.2 = isWS q.1) p hp

theorem upperChar_eq_dash (c : Char) : upperChar c = '-' ↔ c = '-' := by
  rcases upperChar_cases c with ⟨heq, _⟩ | ⟨p, hp, hpc, hval⟩
  · rw [heq]
  · rw [hval, ← hpc]
    exact (by decide : ∀ q ∈ lowerUpper, (q.2 = '-' ↔ q.1 = '-')) p hp

theorem upperChar_eq_plus (c : Char) : upperChar c = '+' ↔ c = '+' := by
  rcases upperChar_cases c with ⟨heq, _⟩ | ⟨p, hp, hpc, hval⟩
  · rw [heq]
  · rw [hval, ← hpc]
    exact (by decide : ∀ q ∈ lowerUpper, (q.2 = '+' ↔ q.1 = '+')) p hp

theorem upperChar_eq_dot (c : Char) : upperChar c = '.' ↔ c = '.' := by
  rcases upperChar_cases c with ⟨heq, _⟩ | ⟨p, hp, hpc, hval⟩
  · rw [heq]
  · rw [hval, ← hpc]
    exact (by decide : ∀ q ∈ lowerUpper, (q.2 = '.' ↔ q.1 = '.')) p hp

theorem upperChar_eq_comma (c : Char) : upperChar c = ',' ↔ c = ',' := by
  rcases upperChar_cases c with ⟨heq, _⟩ | ⟨p, hp, hpc, hval⟩
  · rw [heq]
  · rw [hval, ← hpc]
    exact (by decide : ∀ q ∈ lowerUpper, (q.2 = ',' ↔ q.1 = ',')) p hp

theorem upperChar_eq_T (c : Char) : upperChar c = 'T' ↔ c = 'T' ∨ c = 't' := by
  rcases upperChar_cases c with ⟨heq, hni⟩ | ⟨p, hp, hpc, hval⟩
  · rw [heq]
    have ht : c ≠ 't' := fun h => hni ('t', 'T') (by decide) (by rw [h])
    exact ⟨Or.inl, fun h => h.elim id fun h' => absurd h' ht⟩
  · rw [hval, ← hpc]
    exact (by decide :
      ∀ q ∈ lowerUpper, (q.2 = 'T' ↔ q.1 = 'T' ∨ q.1 = 't')) p hp

theorem upperChar_eq_B (c : Char) : upperChar c = 'B' ↔ c = 'B' ∨ c = 'b' := by
  rcases upperChar_cases c with ⟨heq, hni⟩ | ⟨p, hp, hpc, hval⟩
  · rw [heq]
    have hb : c ≠ 'b' := fun h => hni ('b', 'B') (by decide) (by rw [h])
    exact ⟨Or.inl, fun h => h.elim id fun h' => absurd h' hb⟩
  · rw [hval, ← hpc]
    exact (by decide :
      ∀ q ∈ lowerUpper, (q.2 = 'B' ↔ q.1 = 'B' ∨ q.1 = 'b')) p hp

theorem upperChar_eq_M (c : Char) : upperChar c = 'M' ↔ c = 'M' ∨ c = 'm' := by
  rcases upperChar_cases c with ⟨heq, hni⟩ | ⟨p, hp, hpc, hval⟩
  · rw [heq]
    have hm : c ≠ 'm' := fun h => hni ('m', 'M') (by decide) (by rw [h])
    exact ⟨Or.inl, fun h => h.elim id fun h' => absurd h' hm⟩
  · rw [hval, ← hpc]
    exact (by decide :
      ∀ q ∈ lowerUpper, (q.2 = 'M' ↔ q.1 = 'M' ∨ q.1 = 'm')) p hp

theorem upperChar_exp (c : Char) :
    (upperChar c = 'e' ∨ upperChar c = 'E') ↔ (c = 'e' ∨ c = 'E') := by
  rcases upperChar_cases c with ⟨heq, _⟩ | ⟨p, hp, hpc, hval⟩
  · rw [heq]
  · rw [hval, ← hpc]
    exact (by decide :
      ∀ q ∈ lowerUpper, ((q.2 = 'e' ∨ q.2 = 'E') ↔ (q.1 = 'e' ∨ q.1 = 'E'))) p hp

theorem upperStr_cons (c : Char) (r : List Char) :
    upperStr (c :: r) = upperChar c :: upperStr r := rfl

theorem upperStr_eq_nil (l : List Char) : upperStr l = [] ↔ l = [] := by
  simp [upperStr]

theorem takeWhile_isDigit_upper (l : List Char) :
    (upperStr l).takeWhile isDigit = l.takeWhile isDigit := by
  rw [upperStr, List.takeWhile_map]
  have hp : (isDigit ∘ upperChar) = isDigit := funext isDigit_upperChar
  rw [hp]
  have h2 : List.map upperChar (l.takeWhile isDigit) =
      List.map id (l.takeWhile isDigit) :=
    List.map_congr_left fun a ha => upperChar_of_digit (List.mem_takeWhile_imp ha)
  rw [h2, List.map_id]

theorem dropWhile_isDigit_upper (l : List Char) :
    (upperStr l).dropWhile isDigit = upperStr (l.dropWhile isDigit) := by
  rw [upperStr, List.dropWhile_map]
  have hp : (isDigit ∘ upperChar) = isDigit := funext isDigit_upperChar
  rw [hp]
  rfl

theorem trimWS_upper (l : List Char) : trimWS (upperStr l) = upperStr (trimWS l) := by
  unfold trimWS
  have hp : (isWS ∘ upperChar) = isWS := funext isWS_upperChar
  rw [upperStr, List.dropWhile_map, hp, ← List.map_reverse, List.dropWhile_map,
    hp, ← List.map_reverse]
  rfl

theorem filter_comma_upper (l : List Char) :
    ((upperStr l).filter fun c => c ≠ ',') =
      upperStr (l.filter fun c => c ≠ ',') := by
  rw [upperStr, List.filter_map]
  have hp : ((fun c : Char => decide (c ≠ ',')) ∘ upperChar) =
      fun c : Char => decide (c ≠ ',') := by
    funext c
    simp only [Function.comp_apply, decide_eq_decide]
    exact not_congr (upperChar_eq_comma c)
  rw [hp]
  rfl

theorem splitSign_upper (cs : List Char) :
    splitSign (upperStr cs) = ((splitSign cs).1, upperStr (splitSign cs).2) := by
  cases cs with
  | nil => rfl
  | cons c r =>
      rw [upperStr_cons]
      simp only [splitSign]
      by_cases h1 : c = '-'
      · rw [if_pos ((upperChar_eq_dash c).mpr h1), if_pos h1]
      · rw [if_neg (fun hh => h1 ((upperChar_eq_dash c).mp hh)), if_neg h1]
        by_cases h2 : c = '+'
        · rw [if_pos ((upperChar_eq_plus c).mpr h2), if_pos h2]
        · rw [if_neg (fun hh => h2 ((upperChar_eq_plus c).mp hh)), if_neg h2]
          exact Prod.ext rfl (upperStr_cons c r).symm

theorem splitFrac_upper (cs : List Char) :
    splitFrac (upperStr cs) = ((splitFrac cs).1, upperStr (splitFrac cs).2) := by
  cases cs with
  | nil => rfl
  | cons c r =>
      rw [upperStr_cons]
      simp only [splitFrac]
      by_cases h1 : c = '.'
      · rw [if_pos ((upperChar_eq_dot c).mpr h1), if_pos h1]
        rw [takeWhile_isDigit_upper, dropWhile_isDigit_upper]
      · rw [if_neg (fun hh => h1 ((upperChar_eq_dot c).mp hh)), if_neg h1]
        exact Prod.ext rfl (upperStr_cons c r).symm

theorem expMult_upper (cs : List Char) : expMult (upperStr cs) = expMult cs := by
  cases cs with
  | nil => rfl
  | cons c r =>
      rw [upperStr_cons]
      simp only [expMult]
      by_cases h : c = 'e' ∨ c = 'E'
      · rw [if_pos ((upperChar_exp c).mpr h), if_pos h]
        simp [splitSign_upper, takeWhile_isDigit_upper, dropWhile_isDigit_upper,
          upperStr_eq_nil]
      · rw [if_neg (fun hh => h ((upperChar_exp c).mp hh)), if_neg h]

theorem pyFloat_upper (cs : List Char) : pyFloat (upperStr cs) = pyFloat cs := by
  simp only [pyFloat]
  rw [trimWS_upper, splitSign_upper]
  simp [takeWhile_isDigit_upper, dropWhile_isDigit_upper, splitFrac_upper,
    expMult_upper]

/-- The uppercased string ends in the uppercase suffix letter iff the
original ends in the letter in either case. -/
theorem getLast_upper_suffix (t : List Char) (u lo : Char)
    (hiff : ∀ c, upperChar c = u ↔ c = u ∨ c = lo) :
    (upperStr t).getLast? = some u ↔
      (t.getLast? = some u ∨ t.getLast? = some lo) := by
  rw [upperStr, List.getLast?_map]
  cases t.getLast? with
  | none => simp
  | some c => simp [hiff c]

/-- `parse_market_cap` computes the magnitude exactly as the spec words
it: commas stripped, case-insensitive `T`/`B`/`M` suffix multiplying the
numeric part by `1e12`/`1e9`/`1e6` (no suffix: `1`), empty or unparseable
input giving `0`. -/
theorem parse_eq_spec (cs : List Char) :
    parse_market_cap cs = specMarketCapMagnitude cs := by
  unfold parse_market_cap specMarketCapMagnitude
  by_cases hnil : cs = []
  · subst hnil
    norm_num [trimWS, numericPart, pyFloat, splitSign, splitFrac, expMult,
      upperStr]
  · rw [if_neg hnil]
    rw [filter_comma_upper, trimWS_upper]
    generalize trimWS (cs.filter fun c => c ≠ ',') = t
    have hdrop : (upperStr t).dropLast = upperStr t.dropLast := by
      rw [upperStr, ← List.map_dropLast]
      rfl
    by_cases hT : t.getLast? = some 'T' ∨ t.getLast? = some 't'
    · rw [if_pos ((getLast_upper_suffix t 'T' 't' upperChar_eq_T).mpr hT),
        if_pos hT, hdrop, pyFloat_upper]
      cases hpf : pyFloat t.dropLast <;> simp [numericPart, hpf]
    · rw [if_neg (fun hh => hT ((getLast_upper_suffix t 'T' 't' upperChar_eq_T).mp hh)),
        if_neg hT]
      by_cases hB : t.getLast? = some 'B' ∨ t.getLast? = some 'b'
      · rw [if_pos ((getLast_upper_suffix t 'B' 'b' upperChar_eq_B).mpr hB),
          if_pos hB, hdrop, pyFloat_upper]
        cases hpf : pyFloat t.dropLast <;> simp [numericPart, hpf]
      · rw [if_neg (fun hh => hB ((getLast_upper_suffix t 'B' 'b' upperChar_eq_B).mp hh)),
          if_neg hB]
        by_cases hM : t.getLast? = some 'M' ∨ t.getLast? = some 'm'
        · rw [if_pos ((getLast_upper_suffix t 'M' 'm' upperChar_eq_M).mpr hM),
            if_pos hM, hdrop, pyFloat_upper]
          cases hpf : pyFloat t.dropLast <;> simp [numericPart, hpf]
        · rw [if_neg (fun hh => hM ((getLast_upper_suffix t 'M' 'm' upperChar_eq_M).mp hh)),
            if_neg hM, pyFloat_upper]
          cases hpf : pyFloat t <;> simp [numericPart, hpf]

theorem classify_mem (m : ℚ) :
    classify_market_cap m ∈
      ["Mega-cap", "Large-cap", "Mid-cap", "Small-cap", "Micro-cap",
       "Nano-cap"] := by
  unfold classify_market_cap
  split_ifs <;> simp

theorem classify_eq_mega (m : ℚ) :
    classify_market_cap m = "Mega-cap" ↔ 200000000000 < m := by
  unfold classify_market_cap
  by_cases h1 : m > 200000000000
  · rw [if_pos h1]
    exact iff_of_true rfl h1
  · rw [if_neg h1]
    split_ifs with h2 h3 h4 h5 <;> exact iff_of_false (by decide) h1

theorem classify_eq_large (m : ℚ) :
    classify_market_cap m = "Large-cap" ↔
      10000000000 ≤ m ∧ m ≤ 200000000000 := by
  unfold classify_market_cap
  by_cases h1 : m > 200000000000
  · rw [if_pos h1]
    exact iff_of_false (by decide) fun hc => by linarith [hc.2]
  · rw [if_neg h1]
    by_cases h2 : 10000000000 ≤ m ∧ m ≤ 200000000000
    · rw [if_pos h2]
      exact iff_of_true rfl h2
    · rw [if_neg h2]
      split_ifs with h3 h4 h5 <;> exact iff_of_false (by decide) h2

theorem classify_eq_mid (m : ℚ) :
    classify_market_cap m = "Mid-cap" ↔
      2000000000 ≤ m ∧ m < 10000000000 := by
  unfold classify_market_cap
  by_cases h1 : m > 200000000000
  · rw [if_pos h1]
    exact iff_of_false (by decide) fun hc => by linarith [hc.2]
  · rw [if_neg h1]
    by_cases h2 : 10000000000 ≤ m ∧ m ≤ 200000000000
    · rw [if_pos h2]
      exact iff_of_false (by decide) fun hc => by linarith [h2.1, hc.2]
    · rw [if_neg h2]
      by_cases h3 : 2000000000 ≤ m ∧ m < 10000000000
      · rw [if_pos h3]
        exact iff_of_true rfl h3
      · rw [if_neg h3]
        split_ifs with h4 h5 <;> exact iff_of_false (by decide) h3

theorem classify_eq_small (m : ℚ) :
    classify_market_cap m = "Small-cap" ↔
      300000000 ≤ m ∧ m < 2000000000 := by
  unfold classify_market_cap
  by_cases h1 : m > 200000000000
  · rw [if_pos h1]
    exact iff_of_false (by decide) fun hc => by linarith [hc.2]
  · rw [if_neg h1]
    by_cases h2 : 10000000000 ≤ m ∧ m ≤ 200000000000
    · rw [if_pos h2]
      exact iff_of_false (by decide) fun hc => by linarith [h2.1, hc.2]
    · rw [if_neg h2]
      by_cases h3 : 2000000000 ≤ m ∧ m < 10000000000
      · rw [if_pos h3]
        exact iff_of_false (by decide) fun hc => by linarith [h3.1, hc.2]
      · rw [if_neg h3]
        by_cases h4 : 300000000 ≤ m ∧ m < 2000000000
        · rw [if_pos h4]
          exact iff_of_true rfl h4
        · rw [if_neg h4]
          split_ifs with h5 <;> exact iff_of_false (by decide) h4

theorem classify_eq_micro (m : ℚ) :
    classify_market_cap m = "Micro-cap" ↔
      50000000 ≤ m ∧ m < 300000000 := by
  unfold classify_market_cap
  by_cases h1 : m > 200000000000
  · rw [if_pos h1]
    exact iff_of_false (by decide) fun hc => by linarith [hc.2]
  · rw [if_neg h1]
    by_cases h2 : 10000000000 ≤ m ∧ m ≤ 200000000000
    · rw [if_pos h2]
      exact iff_of_false (by decide) fun hc => by linarith [h2.1, hc.2]
    · rw [if_neg h2]
      by_cases h3 : 2000000000 ≤ m ∧ m < 10000000000
      · rw [if_pos h3]
        exact iff_of_false (by decide) fun hc => by linarith [h3.1, hc.2]
      · rw [if_neg h3]
        by_cases h4 : 300000000 ≤ m ∧ m < 2000000000
        · rw [if_pos h4]
          exact iff_of_false (by decide) fun hc => by linarith [h4.1, hc.2]
        · rw [if_neg h4]
          by_cases h5 : 50000000 ≤ m ∧ m < 300000000
          · rw [if_pos h5]
            exact iff_of_true rfl h5
          · rw [if_neg h5]
            exact iff_of_false (by decide) h5

theorem classify_eq_nano (m : ℚ) :
    classify_market_cap m = "Nano-cap" ↔ m < 50000000 := by
  unfold classify_market_cap
  by_cases h1 : m > 200000000000
  · rw [if_pos h1]
    exact iff_of_false (by decide) fun hc => by linarith
  · rw [if_neg h1]
    by_cases h2 : 10000000000 ≤ m ∧ m ≤ 200000000000
    · rw [if_pos h2]
      exact iff_of_false (by decide) fun hc => by linarith [h2.1]
    · rw [if_neg h2]
      by_cases h3 : 2000000000 ≤ m ∧ m < 10000000000
      · rw [if_pos h3]
        exact iff_of_false (by decide) fun hc => by linarith [h3.1]
      · rw [if_neg h3]
        by_cases h4 : 300000000 ≤ m ∧ m < 2000000000
        · rw [if_pos h4]
          exact iff_of_false (by decide) fun hc => by linarith [h4.1]
        · rw [if_neg h4]
          by_cases h5 : 50000000 ≤ m ∧ m < 300000000
          · rw [if_pos h5]
            exact iff_of_false (by decide) fun hc => by linarith [h5.1]
          · rw [if_neg h5]
            refine iff_of_true rfl ?_
            by_contra hge
            rw [not_lt] at hge
            have h3e8 : (300000000 : ℚ) ≤ m := by
              by_contra hx
              rw [not_le] at hx
              exact h5 ⟨hge, hx⟩
            have h2e9 : (2000000000 : ℚ) ≤ m := by
              by_contra hx
              rw [not_le] at hx
              exact h4 ⟨h3e8, hx⟩
            have h1e10 : (10000000000 : ℚ) ≤ m := by
              by_contra hx
              rw [not_le] at hx
              exact h3 ⟨h2e9, hx⟩
            have h2e11 : ¬ m ≤ 200000000000 := fun hle => h2 ⟨h1e10, hle⟩
            exact h1 (not_le.mp h2e11)

/-- The magnitude parsed from the string `"250B"`. -/
theorem parse_250B : parse_market_cap ['2', '5', '0', 'B'] = 250000000000 := by
  have h2 : pyFloat ['2', '5', '0'] = some 250 := by
    simp +decide [pyFloat, trimWS, splitSign, splitFrac, expMult, applySign,
      digitsToNat, digitVal]
  have h3 : (['2', '5', '0', 'B'] : List Char).dropLast = ['2', '5', '0'] := by
    decide
  have h1 : trimWS ((upperStr ['2', '5', '0', 'B']).filter fun c => c ≠ ',') =
      ['2', '5', '0', 'B'] := by decide
  unfold parse_market_cap
  rw [if_neg (by decide : ¬(['2', '5', '0', 'B'] : List Char) = [])]
  simp only [h1]
  rw [if_neg (by decide : ¬((['2', '5', '0', 'B'] : List Char).getLast? = some 'T')),
    if_pos (by decide : (['2', '5', '0', 'B'] : List Char).getLast? = some 'B'),
    h3, h2]
  norm_num

end Size

/-! ## Lemmas about the Result Combiner -/

/-- When every required file can be read, `readAll` succeeds and the
combined list holds each file's document keyed by the filename with
`.json` stripped. -/
theorem readAll_ok {α : Type} (uid : String)
    (store : List (String × String × α)) (fs : List String)
    (hall : ∀ f ∈ fs, (ResultCompiler.objLookup uid store f).isSome) :
    ∃ l, ResultCompiler.readAll uid store fs = .ok l ∧
      l.map Prod.fst = fs.map (fun f => f.replace ".json" "") ∧
      ∀ f ∈ fs, ∃ d, ResultCompiler.objLookup uid store f = some d ∧
        (f.replace ".json" "", d) ∈ l := by
  induction fs with
  | nil => exact ⟨[], rfl, rfl, by simp⟩
  | cons f rest ih =>
      have hf := hall f (List.mem_cons_self f rest)
      obtain ⟨d, hd⟩ := Option.isSome_iff_exists.mp hf
      obtain ⟨l, hok, hmap, hmem⟩ :=
        ih fun g hg => hall g (List.mem_cons_of_mem f hg)
      refine ⟨(f.replace ".json" "", d) :: l, ?_, ?_, ?_⟩
      · simp only [ResultCompiler.readAll, hd, hok, Except.map]
      · simp [hmap]
      · intro g hg
        rcases List.mem_cons.mp hg with hgf | hgr
        · subst hgf
          exact ⟨d, hd, List.mem_cons_self _ _⟩
        · obtain ⟨d', hd', hmem'⟩ := hmem g hgr
          exact ⟨d', hd', List.mem_cons_of_mem _ hmem'⟩

/-! ## Lemmas about the Normalizer -/

theorem sumValues_map_div (m : List (κ × ℚ)) (t : ℚ) :
    sumValues (m.map fun p => (p.1, p.2 / t * 100)) = sumValues m / t * 100 := by
  induction m with
  | nil => simp [sumValues]
  | cons p rest ih =>
      simp only [sumValues, List.map_cons, List.sum_cons] at ih ⊢
      rw [ih, add_div, add_mul]

theorem keysOf_normalize [DecidableEq κ] (m : List (κ × ℚ)) :
    keysOf (Sector.normalize_sector_allocations m) = keysOf m := by
  rw [Sector.normalize_sector_allocations]
  by_cases h : sumValues m = 0
  · rw [if_pos h]
  · rw [if_neg h, keysOf_map_value]

theorem lookupD_normalize [DecidableEq κ] (m : List (κ × ℚ)) (k : κ) :
    lookupD (Sector.normalize_sector_allocations m) k =
      if sumValues m = 0 then lookupD m k
      else lookupD m k / sumValues m * 100 := by
  rw [Sector.normalize_sector_allocations]
  by_cases h : sumValues m = 0
  · rw [if_pos h, if_pos h]
  · rw [if_neg h, if_neg h]
    exact lookupD_map_value m (fun x => x / sumValues m * 100) (by simp) k

theorem sumValues_normalize [DecidableEq κ] (m : List (κ × ℚ))
    (h : sumValues m ≠ 0) :
    sumValues (Sector.normalize_sector_allocations m) = 100 := by
  rw [Sector.normalize_sector_allocations, if_neg h, sumValues_map_div,
    div_mul_eq_mul_div, mul_comm, mul_div_assoc, div_self h, mul_one]

theorem lookupD_normalize_ne_zero [DecidableEq κ] {m : List (κ × ℚ)} {k : κ}
    (h : lookupD m k ≠ 0) :
    lookupD (Sector.normalize_sector_allocations m) k ≠ 0 := by
  rw [lookupD_normalize]
  by_cases ht : sumValues m = 0
  · rwa [if_pos ht]
  · rw [if_neg ht]
    exact mul_ne_zero (div_ne_zero h ht) (by norm_num)

theorem lookupD_normalize_eq_zero [DecidableEq κ] {m : List (κ × ℚ)} {k : κ}
    (h : lookupD m k = 0) :
    lookupD (Sector.normalize_sector_allocations m) k = 0 := by
  rw [lookupD_normalize, h]
  by_cases ht : sumValues m = 0
  · rw [if_pos ht]
  · rw [if_neg ht, zero_div, zero_mul]

/-! ## Lemmas about the Cosine Similarity Scorer -/

theorem dotL_map_map [DecidableEq κ] (ks : List κ) (f g : κ → ℚ) :
    Sector.dotL (ks.map f) (ks.map g) = (ks.map fun k => f k * g k).sum := by
  rw [Sector.dotL, List.zipWith_map, List.zipWith_same]

theorem dotL_self (v : List ℚ) : Sector.dotL v v = Sector.sumSq v := by
  rw [Sector.dotL, Sector.sumSq, List.zipWith_same]

theorem sumSq_cons (x : ℚ) (rest : List ℚ) :
    Sector.sumSq (x :: rest) = x * x + Sector.sumSq rest := by
  simp [Sector.sumSq]

theorem sumSq_nonneg (v : List ℚ) : 0 ≤ Sector.sumSq v := by
  induction v with
  | nil => exact le_refl 0
  | cons y rest ih =>
      rw [sumSq_cons]
      exact add_nonneg (mul_self_nonneg y) ih

theorem sumSq_pos_of_mem {v : List ℚ} {x : ℚ} (hx : x ∈ v) (hne : x ≠ 0) :
    0 < Sector.sumSq v := by
  induction v with
  | nil => cases hx
  | cons y rest ih =>
      rw [sumSq_cons]
      rcases List.mem_cons.mp hx with h | h
      · subst h
        exact add_pos_of_pos_of_nonneg (mul_self_pos.mpr hne) (sumSq_nonneg rest)
      · exact add_pos_of_nonneg_of_pos (mul_self_nonneg y) (ih h)

theorem userVec_self [DecidableEq κ] (a : List (κ × ℚ)) :
    Sector.userVec a a = Sector.spVec a a := rfl

theorem roundHalfEven_intCast (n : ℤ) : Sector.roundHalfEven (n : ℝ) = n := by
  unfold Sector.roundHalfEven
  rw [Int.fract_intCast]
  rw [if_pos (by norm_num : (0 : ℝ) < 1 / 2)]
  exact Int.floor_intCast n

theorem pyRound2_zero : Sector.pyRound2 0 = 0 := by
  unfold Sector.pyRound2
  rw [zero_mul, show (0 : ℝ) = ((0 : ℤ) : ℝ) by norm_num, roundHalfEven_intCast]
  norm_num

theorem pyRound2_hundred : Sector.pyRound2 100 = 100 := by
  unfold Sector.pyRound2
  rw [show (100 : ℝ) * 100 = ((10000 : ℤ) : ℝ) by norm_num,
    roundHalfEven_intCast]
  norm_num

/-! ## Claim theorems -/

/-- C1: the Normalizer keeps exactly the keys of its input; when the values
sum to a nonzero total every key's value becomes `value / total * 100`; with
a positive total the output values sum to exactly `100` (hence within
`1e-6` of `100.0`) and relative ordering of values is preserved; when the
total is `0` (the empty dict included) the input is returned unchanged. -/
theorem normalizer_spec [DecidableEq κ] (m : List (κ × ℚ)) :
    (sumValues m ≠ 0 →
      keysOf (Sector.normalize_sector_allocations m) = keysOf m ∧
      (∀ k, lookupD (Sector.normalize_sector_allocations m) k =
        lookupD m k / sumValues m * 100) ∧
      sumValues (Sector.normalize_sector_allocations m) = 100 ∧
      |sumValues (Sector.normalize_sector_allocations m) - 100| ≤ 1 / 1000000) ∧
    (0 < sumValues m → ∀ k₁ k₂,
      (lookupD m k₁ ≤ lookupD m k₂ ↔
        lookupD (Sector.normalize_sector_allocations m) k₁ ≤
          lookupD (Sector.normalize_sector_allocations m) k₂)) ∧
    (sumValues m = 0 → Sector.normalize_sector_allocations m = m) := by
  refine ⟨fun h => ⟨keysOf_normalize m, fun k => ?_, sumValues_normalize m h, ?_⟩,
    fun hpos k₁ k₂ => ?_, fun h => ?_⟩
  · rw [lookupD_normalize, if_neg h]
  · rw [sumValues_normalize m h]
    norm_num
  · have h : sumValues m ≠ 0 := ne_of_gt hpos
    rw [lookupD_normalize, lookupD_normalize, if_neg h, if_neg h]
    rw [div_mul_eq_mul_div, div_mul_eq_mul_div,
      div_le_div_iff_of_pos_right hpos]
    constructor
    · exact fun hle => by nlinarith
    · exact fun hle => by nlinarith
  · rw [Sector.normalize_sector_allocations, if_pos h]

/-- Witness for `normalizer_spec` at the concrete dict
`{"a": 1, "b": 3}` (total `4`) and at the empty dict (total `0`). -/
theorem normalizer_spec_witness :
    (keysOf (Sector.normalize_sector_allocations [("a", (1 : ℚ)), ("b", 3)]) =
        keysOf [("a", (1 : ℚ)), ("b", 3)] ∧
      (∀ k, lookupD (Sector.normalize_sector_allocations [("a", (1 : ℚ)), ("b", 3)]) k =
        lookupD [("a", (1 : ℚ)), ("b", 3)] k / sumValues [("a", (1 : ℚ)), ("b", 3)] * 100) ∧
      sumValues (Sector.normalize_sector_allocations [("a", (1 : ℚ)), ("b", 3)]) = 100 ∧
      |sumValues (Sector.normalize_sector_allocations [("a", (1 : ℚ)), ("b", 3)]) - 100| ≤
        1 / 1000000) ∧
    Sector.normalize_sector_allocations ([] : List (String × ℚ)) = [] :=
  ⟨(normalizer_spec [("a", (1 : ℚ)), ("b", 3)]).1 (by norm_num [sumValues]),
   (normalizer_spec ([] : List (String × ℚ))).2.2 (by norm_num [sumValues])⟩

/-- C4: each weighted scalar metric (weighted beta, weighted Sharpe,
weighted trailing-return momentum) equals the sum over all holdings of
`portfolio_percentage / 100 * metric`, a missing metric or percentage
contributing `0` without the holding being skipped; in particular the two
holdings `{beta: 1.2, portfolio_percentage: 50}` and
`{beta: 0.8, portfolio_percentage: 50}` give weighted beta exactly `1`. -/
theorem weighted_scalar_spec :
    (∀ hs : List Holding, Volatility.weighted_beta hs =
      (hs.map fun h => h.portfolio_percentage.getD 0 / 100 * h.beta.getD 0).sum) ∧
    (∀ hs : List Holding, Volatility.weighted_sharpe hs =
      (hs.map fun h => h.portfolio_percentage.getD 0 / 100 * h.sharpe.getD 0).sum) ∧
    (∀ hs : List Holding, Momentum.weighted_trailing_return hs =
      (hs.map fun h =>
        h.portfolio_percentage.getD 0 / 100 * h.trailing_return_1m.getD 0).sum) ∧
    Volatility.weighted_beta
      [{ beta := some (12 / 10), portfolio_percentage := some 50 },
       { beta := some (8 / 10), portfolio_percentage := some 50 }] = 1 := by
  refine ⟨fun hs => ?_, fun hs => ?_, fun hs => ?_, ?_⟩
  · rw [Volatility.weighted_beta,
      foldl_add_eq_sum (fun h : Holding =>
        h.portfolio_percentage.getD 0 / 100 * h.beta.getD 0), zero_add]
  · rw [Volatility.weighted_sharpe,
      foldl_add_eq_sum (fun h : Holding =>
        h.portfolio_percentage.getD 0 / 100 * h.sharpe.getD 0), zero_add]
  · rw [Momentum.weighted_trailing_return,
      foldl_add_eq_sum (fun h : Holding =>
        h.trailing_return_1m.getD 0 * (h.portfolio_percentage.getD 0 / 100)),
      zero_add]
    have hc : (fun h : Holding =>
        h.trailing_return_1m.getD 0 * (h.portfolio_percentage.getD 0 / 100)) =
        fun h : Holding =>
          h.portfolio_percentage.getD 0 / 100 * h.trailing_return_1m.getD 0 :=
      funext fun h => mul_comm _ _
    rw [hc]
  · norm_num [Volatility.weighted_beta, List.foldl]

/-- C6: the momentum comparison is
`(weighted_return - 3.5) / 3.5 * 100` against the fixed S&P 500 momentum
`3.5` whenever the weighted trailing return is nonzero, and `None`
(not `0`, and no exception) when the weighted trailing return is exactly
zero. -/
theorem momentum_comparison_spec (hs : List Holding) :
    Momentum.momentum_comparison hs =
      if Momentum.weighted_trailing_return hs = 0 then none
      else some ((Momentum.weighted_trailing_return hs - 7 / 2) / (7 / 2) * 100) := by
  rw [Momentum.momentum_comparison]
  by_cases h : Momentum.weighted_trailing_return hs = 0
  · simp [h, Momentum.sp500_momentum]
  · simp [h, Momentum.sp500_momentum]

/-- C2: the cosine similarity scorer returns the defined value `0.0` —
it is a total function, so no division-by-zero error can occur — whenever
either built vector's magnitude is zero (equivalently its sum of squares
is `0`), and in particular whenever the two input distributions have
disjoint non-zero key sets. -/
theorem similarity_zero_spec {κ : Type} [DecidableEq κ] :
    (∀ a b : List (κ × ℚ),
      Sector.sumSq (Sector.spVec a b) = 0 ∨
        Sector.sumSq (Sector.userVec a b) = 0 →
      Sector.calculate_similarity a b = 0) ∧
    (∀ a b : List (κ × ℚ),
      (∀ k ∈ keysOf a, lookupD a k ≠ 0 → lookupD b k = 0) →
      Sector.calculate_similarity a b = 0) := by
  have hzero : ∀ a b : List (κ × ℚ),
      Sector.sumSq (Sector.spVec a b) = 0 ∨
        Sector.sumSq (Sector.userVec a b) = 0 →
      Sector.calculate_similarity a b = 0 := by
    intro a b h
    simp only [Sector.calculate_similarity]
    rcases h with h | h
    · rw [if_pos (Or.inl (by rw [h]; simp))]
    · rw [if_pos (Or.inr (by rw [h]; simp))]
  refine ⟨hzero, fun a b hdisj => ?_⟩
  have hdot : Sector.dotL (Sector.spVec a b) (Sector.userVec a b) = 0 := by
    rw [Sector.spVec, Sector.userVec, dotL_map_map]
    apply List.sum_eq_zero
    intro x hx
    obtain ⟨k, hk, hkx⟩ := List.mem_map.mp hx
    rw [← hkx]
    by_cases hak : lookupD a k = 0
    · rw [lookupD_normalize_eq_zero hak, zero_mul]
    · have hbk := hdisj k (mem_keysOf_of_lookupD_ne_zero hak) hak
      rw [lookupD_normalize_eq_zero hbk, mul_zero]
  simp only [Sector.calculate_similarity]
  by_cases hmag :
      Real.sqrt ((Sector.sumSq (Sector.spVec a b) : ℚ) : ℝ) = 0 ∨
        Real.sqrt ((Sector.sumSq (Sector.userVec a b) : ℚ) : ℝ) = 0
  · rw [if_pos hmag]
  · rw [if_neg hmag, hdot]
    norm_num [pyRound2_zero]

/-- Witness for `similarity_zero_spec`: an all-zero user distribution
gives similarity `0.0`, and distributions with disjoint non-zero supports
give similarity `0.0`. -/
theorem similarity_zero_spec_witness :
    Sector.calculate_similarity [("X", (1 : ℚ))] [("Y", (0 : ℚ))] = 0 ∧
    Sector.calculate_similarity [("X", (1 : ℚ))] [("Y", (2 : ℚ))] = 0 := by
  constructor
  · apply similarity_zero_spec.1 [("X", (1 : ℚ))] [("Y", (0 : ℚ))]
    refine Or.inr ?_
    have hnk : Sector.normKeys [("X", (1 : ℚ))] [("Y", (0 : ℚ))] =
        ["X", "Y"] := by
      rw [Sector.normKeys, Sector.allKeys, keysOf_normalize, keysOf_normalize]
      decide
    have hnb : Sector.normalize_sector_allocations [("Y", (0 : ℚ))] =
        [("Y", (0 : ℚ))] := by
      rw [Sector.normalize_sector_allocations, if_pos (by norm_num [sumValues])]
    norm_num [Sector.sumSq, Sector.userVec, hnk, hnb, lookupD, List.find?,
      (by decide : ("Y" == "X") = false)]
  · apply similarity_zero_spec.2 [("X", (1 : ℚ))] [("Y", (2 : ℚ))]
    intro k hk
    simp only [keysOf, List.map_cons, List.map_nil, List.mem_singleton] at hk
    subst hk
    intro _
    norm_num [lookupD, List.find?, (by decide : ("Y" == "X") = false)]

/-- C9: the cosine similarity of a distribution with itself is `100.0`
whenever the distribution has at least one nonzero weight
(self-similarity is maximal). -/
theorem self_similarity {κ : Type} [DecidableEq κ] (a : List (κ × ℚ))
    (h : ∃ k, lookupD a k ≠ 0) :
    Sector.calculate_similarity a a = 100 := by
  obtain ⟨k, hk⟩ := h
  have hk' : lookupD (Sector.normalize_sector_allocations a) k ≠ 0 :=
    lookupD_normalize_ne_zero hk
  have hkmem : k ∈ Sector.normKeys a a := by
    rw [Sector.normKeys, Sector.allKeys, List.mem_dedup, List.mem_append]
    exact Or.inl (mem_keysOf_of_lookupD_ne_zero hk')
  have hx : lookupD (Sector.normalize_sector_allocations a) k ∈
      Sector.spVec a a :=
    List.mem_map.mpr ⟨k, hkmem, rfl⟩
  have hpos : 0 < Sector.sumSq (Sector.spVec a a) := sumSq_pos_of_mem hx hk'
  have hsR : (0 : ℝ) < ((Sector.sumSq (Sector.spVec a a) : ℚ) : ℝ) := by
    exact_mod_cast hpos
  have hsqrt : Real.sqrt ((Sector.sumSq (Sector.spVec a a) : ℚ) : ℝ) ≠ 0 :=
    ne_of_gt (Real.sqrt_pos.mpr hsR)
  simp only [Sector.calculate_similarity, userVec_self]
  rw [if_neg (by push_neg; exact ⟨hsqrt, hsqrt⟩), dotL_self,
    Real.mul_self_sqrt (le_of_lt hsR), div_self (ne_of_gt hsR), one_mul]
  exact pyRound2_hundred

/-- Witness for `self_similarity` at the one-entry distribution
`{"Tech": 50}`. -/
theorem self_similarity_witness :
    Sector.calculate_similarity [("Tech", (50 : ℚ))] [("Tech", (50 : ℚ))] =
      100 :=
  self_similarity [("Tech", (50 : ℚ))]
    ⟨"Tech", by norm_num [lookupD, List.find?]⟩

/-- C3: market-cap parsing strips commas, handles the `T`/`B`/`M` suffixes
case-insensitively (multiplying the numeric part by `1e12`/`1e9`/`1e6`,
no suffix meaning `1`), yields magnitude `0` for empty or unparseable
input without raising, and the magnitude is bucketed into exactly one of
six tiers with the exact boundaries: Mega-cap above `2e11`; Large-cap on
`[1e10, 2e11]` (both ends included); Mid-cap on `[2e9, 1e10)`; Small-cap
on `[3e8, 2e9)`; Micro-cap on `[5e7, 3e8)`; Nano-cap otherwise, `0` and
unparseable included. -/
theorem market_cap_spec :
    (∀ cs : List Char,
      Size.parse_market_cap cs = Size.specMarketCapMagnitude cs) ∧
    (∀ m : ℚ,
      Size.classify_market_cap m ∈
        ["Mega-cap", "Large-cap", "Mid-cap", "Small-cap", "Micro-cap",
         "Nano-cap"] ∧
      (Size.classify_market_cap m = "Mega-cap" ↔ 200000000000 < m) ∧
      (Size.classify_market_cap m = "Large-cap" ↔
        10000000000 ≤ m ∧ m ≤ 200000000000) ∧
      (Size.classify_market_cap m = "Mid-cap" ↔
        2000000000 ≤ m ∧ m < 10000000000) ∧
      (Size.classify_market_cap m = "Small-cap" ↔
        300000000 ≤ m ∧ m < 2000000000) ∧
      (Size.classify_market_cap m = "Micro-cap" ↔
        50000000 ≤ m ∧ m < 300000000) ∧
      (Size.classify_market_cap m = "Nano-cap" ↔ m < 50000000)) :=
  ⟨Size.parse_eq_spec, fun m =>
    ⟨Size.classify_mem m, Size.classify_eq_mega m, Size.classify_eq_large m,
     Size.classify_eq_mid m, Size.classify_eq_small m,
     Size.classify_eq_micro m, Size.classify_eq_nano m⟩⟩

/-- C8 counterexample: `"250B"` (magnitude `250,000,000,000`) is NOT
assigned to the Large-cap tier, because `250e9 > 200e9` takes the Mega-cap
branch first. -/
theorem market_cap_250B_counterexample :
    Size.classify_market_cap (Size.parse_market_cap ['2', '5', '0', 'B']) ≠
      "Large-cap" := by
  rw [Size.parse_250B, Size.classify_market_cap,
    if_pos (by norm_num : (250000000000 : ℚ) > 200000000000)]
  decide

/-- C8 (amended): the classifier assigns `"250B"` (magnitude
`250,000,000,000`) to the Mega-cap tier — consistent with the boundary
table (`> 200,000,000,000` is Mega-cap). -/
theorem market_cap_250B_mega :
    Size.classify_market_cap (Size.parse_market_cap ['2', '5', '0', 'B']) =
      "Mega-cap" := by
  rw [Size.parse_250B, Size.classify_market_cap,
    if_pos (by norm_num : (250000000000 : ℚ) > 200000000000)]

/-- C7 counterexample: the sector aggregation does NOT skip holdings with
non-positive `portfolio_percentage` — a holding with percentage `-5` still
creates and fills its sector entry, so removing it changes the result. -/
theorem sector_nonpos_counterexample :
    Sector.process_holdings_to_sectors
        [{ sector := some (some "Tech"), portfolio_percentage := some (-5) },
         { sector := some (some "Health Care"), portfolio_percentage := some 10 }] =
      [(some "Tech", (-5 : ℚ)), (some "Health Care", 10)] ∧
    Sector.process_holdings_to_sectors
        [{ sector := some (some "Tech"), portfolio_percentage := some (-5) },
         { sector := some (some "Health Care"), portfolio_percentage := some 10 }] ≠
      Sector.process_holdings_to_sectors
        [{ sector := some (some "Health Care"), portfolio_percentage := some 10 }] := by
  constructor
  · simp [Sector.process_holdings_to_sectors, Sector.sectorKey, bump]
  · intro he
    have hlen := congrArg List.length he
    simp [Sector.process_holdings_to_sectors, Sector.sectorKey, bump] at hlen

/-- C7 (amended): the location aggregation skips every holding whose
`portfolio_percentage` is non-positive or missing from both the
accumulation and the normalization denominator, while continuing to
process the remaining holdings; the sector aggregation does not skip such
holdings — every holding's percentage (missing treated as `0`) is
accumulated under its sector key. -/
theorem aggregation_skip_policy :
    (∀ (pre post : List Holding) (h : Holding),
      h.portfolio_percentage.getD 0 ≤ 0 →
      Location.process_holdings_to_locations (pre ++ h :: post) =
        Location.process_holdings_to_locations (pre ++ post)) ∧
    (∀ (hs : List Holding) (k : Option String),
      lookupD (Sector.process_holdings_to_sectors hs) k =
        ((hs.filter fun h => Sector.sectorKey h = k).map
          fun h => h.portfolio_percentage.getD 0).sum) := by
  constructor
  · intro pre post h hp
    have hfold : (pre ++ h :: post).foldl Location.locStep ⟨[], 0⟩ =
        (pre ++ post).foldl Location.locStep ⟨[], 0⟩ := by
      rw [List.foldl_append, List.foldl_append, List.foldl_cons,
        locStep_of_nonpos _ _ hp]
    rw [Location.process_holdings_to_locations,
      Location.process_holdings_to_locations, hfold]
  · intro hs k
    rw [Sector.process_holdings_to_sectors,
      lookupD_foldl_bump Sector.sectorKey
        (fun h => h.portfolio_percentage.getD 0) hs [] k,
      lookupD_nil, zero_add]

/-- Witness for `aggregation_skip_policy`: dropping a zero-percentage
holding does not change the location result, and the sector value at
`"Tech"` is the (unskipped) filtered percentage sum. -/
theorem aggregation_skip_policy_witness :
    Location.process_holdings_to_locations ([] ++ hZeroPct :: [hFrance]) =
      Location.process_holdings_to_locations ([] ++ [hFrance]) ∧
    lookupD (Sector.process_holdings_to_sectors [hTech]) (some "Tech") =
      (([hTech].filter fun h => Sector.sectorKey h = some "Tech").map
        fun h => h.portfolio_percentage.getD 0).sum :=
  ⟨aggregation_skip_policy.1 [] [hFrance] hZeroPct (by norm_num [hZeroPct]),
   aggregation_skip_policy.2 [hTech] (some "Tech")⟩

/-- C5 counterexample: invoking the combiner with all five required
results absent (an empty namespace) fails with the generic
`"No files found"` error carrying only the listing namespace — not with
an error naming the missing required keys. -/
theorem combiner_empty_counterexample :
    ResultCompiler.lambda_handler "p" ([] : List (String × String × String)) =
      ResultCompiler.Outcome.noFilesErr "results/p/" ∧
    (ResultCompiler.Outcome.noFilesErr "results/p/" :
        ResultCompiler.Outcome String) ≠
      ResultCompiler.Outcome.missingErr ResultCompiler.required_files := by
  constructor
  · rfl
  · simp

/-- C5 (amended): when no object at all exists under the identifier's
namespace the Combiner fails with a generic "no files found" error naming
only the namespace; when at least one object exists but some of the five
required keys are absent it fails with an error naming exactly the
missing keys; in both cases no combined document is written.  When all
five are present it writes one combined document whose keys are the five
filenames with the `.json` suffix stripped, each holding the stored
per-dimension document. -/
theorem combiner_spec {α : Type} :
    (∀ (uid : String) (store : List (String × String × α)),
      ResultCompiler.foundOf uid store = [] →
        ResultCompiler.lambda_handler uid store =
          ResultCompiler.Outcome.noFilesErr (ResultCompiler.resPfx uid)) ∧
    (∀ (uid : String) (store : List (String × String × α)),
      ResultCompiler.foundOf uid store ≠ [] →
      ResultCompiler.missingOf uid store ≠ [] →
        ResultCompiler.lambda_handler uid store =
          ResultCompiler.Outcome.missingErr
            (ResultCompiler.missingOf uid store) ∧
        (∀ f, f ∈ ResultCompiler.missingOf uid store ↔
          f ∈ ResultCompiler.required_files ∧
            f ∉ ResultCompiler.foundOf uid store)) ∧
    (∀ (uid : String) (store : List (String × String × α)),
      ResultCompiler.foundOf uid store ≠ [] →
      ResultCompiler.missingOf uid store = [] →
        ∃ combined,
          ResultCompiler.lambda_handler uid store =
            ResultCompiler.Outcome.okWrite
              (uid ++ "_combined_results.json") combined ∧
          combined.map Prod.fst =
            ResultCompiler.required_files.map
              (fun f => f.replace ".json" "") ∧
          ∀ f ∈ ResultCompiler.required_files, ∃ d,
            ResultCompiler.objLookup uid store f = some d ∧
            (f.replace ".json" "", d) ∈ combined) := by
  refine ⟨fun uid store h => ?_, fun uid store h1 h2 => ⟨?_, fun f => ?_⟩,
    fun uid store h1 h2 => ?_⟩
  · unfold ResultCompiler.lambda_handler
    rw [if_pos h]
  · unfold ResultCompiler.lambda_handler
    rw [if_neg h1, if_pos h2]
  · simp [ResultCompiler.missingOf, List.mem_filter]
  · have hfound : ∀ f ∈ ResultCompiler.required_files,
        f ∈ ResultCompiler.foundOf uid store := by
      intro f hf
      have := List.filter_eq_nil_iff.mp h2 f hf
      simpa using this
    have hall : ∀ f ∈ ResultCompiler.required_files,
        (ResultCompiler.objLookup uid store f).isSome := by
      intro f hf
      obtain ⟨e, he, h1e⟩ := List.mem_map.mp (hfound f hf)
      have hmf := List.mem_filter.mp he
      rw [ResultCompiler.objLookup, Option.isSome_map', List.find?_isSome]
      refine ⟨e, hmf.1, ?_⟩
      simp only [Bool.and_eq_true, beq_iff_eq]
      exact ⟨by simpa using hmf.2, h1e⟩
    obtain ⟨l, hok, hmap, hmem⟩ :=
      readAll_ok uid store ResultCompiler.required_files hall
    refine ⟨l, ?_, hmap, hmem⟩
    unfold ResultCompiler.lambda_handler
    rw [if_neg h1, if_neg (fun hne => hne h2), hok]

/-- Witness for `combiner_spec`: with four of the five results stored,
the combiner raises the error naming exactly the missing sector file;
with all five stored it writes the combined document. -/
theorem combiner_spec_witness :
    (ResultCompiler.lambda_handler "p" sampleStore4 =
      ResultCompiler.Outcome.missingErr
        (ResultCompiler.missingOf "p" sampleStore4) ∧
      (∀ f, f ∈ ResultCompiler.missingOf "p" sampleStore4 ↔
        f ∈ ResultCompiler.required_files ∧
          f ∉ ResultCompiler.foundOf "p" sampleStore4)) ∧
    (∃ combined,
      ResultCompiler.lambda_handler "p" sampleStore5 =
        ResultCompiler.Outcome.okWrite "p_combined_results.json" combined ∧
      combined.map Prod.fst =
        ResultCompiler.required_files.map (fun f => f.replace ".json" "") ∧
      ∀ f ∈ ResultCompiler.required_files, ∃ d,
        ResultCompiler.objLookup "p" sampleStore5 f = some d ∧
        (f.replace ".json" "", d) ∈ combined) :=
  ⟨combiner_spec.2.1 "p" sampleStore4 (by decide) (by decide),
   combiner_spec.2.2 "p" sampleStore5 (by decide) (by decide)⟩

/-- C10: a holding whose `sector` field is present but `null` is
accumulated under the `null` dict key, not under `"Unknown"`; the
`"Unknown"` default applies exactly when the `sector` key is absent; and
the dispatcher's sector preparer always emits holdings whose `sector` key
is present (with value `null` when there is no enrichment data). -/
theorem sector_null_key_spec :
    (∀ (h : Holding) (hs : List Holding), h.sector = some none →
      lookupD (Sector.process_holdings_to_sectors (h :: hs)) none =
        h.portfolio_percentage.getD 0 +
          lookupD (Sector.process_holdings_to_sectors hs) none ∧
      lookupD (Sector.process_holdings_to_sectors (h :: hs)) (some "Unknown") =
        lookupD (Sector.process_holdings_to_sectors hs) (some "Unknown")) ∧
    (∀ (h : Holding) (hs : List Holding), h.sector = none →
      lookupD (Sector.process_holdings_to_sectors (h :: hs)) (some "Unknown") =
        h.portfolio_percentage.getD 0 +
          lookupD (Sector.process_holdings_to_sectors hs) (some "Unknown")) ∧
    (∀ r : BiasRouter.RawHolding, r.analysis_asset_type ≠ some "ETF" →
      (BiasRouter.prepare_sector_data [r]).map Holding.sector =
        [some r.analysis_sector]) ∧
    (∀ (pd : List BiasRouter.RawHolding) (g : Holding),
      g ∈ BiasRouter.prepare_sector_data pd → g.sector ≠ none) := by
  have hchar : ∀ (hs : List Holding) (k : Option String),
      lookupD (Sector.process_holdings_to_sectors hs) k =
        ((hs.filter fun h => Sector.sectorKey h = k).map
          fun h => h.portfolio_percentage.getD 0).sum := by
    intro hs k
    rw [Sector.process_holdings_to_sectors,
      lookupD_foldl_bump Sector.sectorKey
        (fun h => h.portfolio_percentage.getD 0) hs [] k,
      lookupD_nil, zero_add]
  refine ⟨fun h hs hnull => ?_, fun h hs habs => ?_, fun r hr => ?_,
    fun pd g hg => ?_⟩
  · have hkey : Sector.sectorKey h = none := by
      rw [Sector.sectorKey, hnull]
    constructor
    · rw [hchar, hchar, List.filter_cons]
      simp [hkey]
    · rw [hchar, hchar, List.filter_cons]
      simp [hkey]
  · have hkey : Sector.sectorKey h = some "Unknown" := by
      rw [Sector.sectorKey, habs]
    rw [hchar, hchar, List.filter_cons]
    simp [hkey]
  · simp [BiasRouter.prepare_sector_data,
      List.filter_cons, bne_iff_ne, hr]
  · rw [BiasRouter.prepare_sector_data] at hg
    obtain ⟨r, _, hrg⟩ := List.mem_map.mp hg
    rw [← hrg]
    simp

/-- Witness for `sector_null_key_spec` at concrete holdings: a
present-but-`null` sector accumulates under the `null` key, an absent
sector under `"Unknown"`, and the preparer emits a present `sector` key
for a raw holding with no enrichment data. -/
theorem sector_null_key_spec_witness :
    (lookupD (Sector.process_holdings_to_sectors (hNullSector :: [])) none =
        hNullSector.portfolio_percentage.getD 0 +
          lookupD (Sector.process_holdings_to_sectors []) none ∧
      lookupD (Sector.process_holdings_to_sectors (hNullSector :: []))
          (some "Unknown") =
        lookupD (Sector.process_holdings_to_sectors []) (some "Unknown")) ∧
    lookupD (Sector.process_holdings_to_sectors (hNoSector :: []))
        (some "Unknown") =
      hNoSector.portfolio_percentage.getD 0 +
        lookupD (Sector.process_holdings_to_sectors []) (some "Unknown") ∧
    (BiasRouter.prepare_sector_data [rawPlain]).map Holding.sector =
      [some rawPlain.analysis_sector] ∧
    preparedPlain.sector ≠ none :=
  ⟨sector_null_key_spec.1 hNullSector [] rfl,
   sector_null_key_spec.2.1 hNoSector [] rfl,
   sector_null_key_spec.2.2.1 rawPlain (by simp [rawPlain]),
   sector_null_key_spec.2.2.2 [rawPlain] preparedPlain
     (by simp [BiasRouter.prepare_sector_data, rawPlain, preparedPlain])⟩

end Brainvest
